import Mathlib

/-!
Verification of the finding-extraction and result-consolidation pipeline
(rule engine + aggregator) of the M&A due-diligence analyzer.

The Lean definitions below are a shallow embedding of the Python sources:
  analyzers/aggregator.py   (src/upload/dd_aggregator1.py)
  analyzers/rule_engine.py  (src/upload/dd_rule_engine2.py)
  analyzers/llm_analyzer.py (src/upload/dd_llm_analyzer4.py)

Modelling conventions:
  - Python `int` is `Int`/`Nat`; Python `float` arithmetic is idealized over
    `ℚ` (the quantities involved are exact small rationals); `round(x, 2)`
    is modelled as exact round-half-to-even at two decimals over `ℚ`.
  - Python strings are Lean `String`s; string primitives (`lower`,
    slicing, `split`, `strip`) are given structural character-list
    implementations with Python's semantics, so that concrete instances
    evaluate; `set(...)` of words is a duplicate-free list (which
    occurrence survives is irrelevant to the cardinalities used).
  - The mutable `self.flags` accumulator of `RuleEngine` is modelled by
    explicit state passing (a `RuleEngine` record threaded through
    `analyze`), so statelessness across calls is a theorem, not a
    modelling artifact.
  - `datetime.now()` is an explicit `now` argument of `aggregate`
    (it only feeds the report timestamp field).
-/

/-! ### Data model (models/schemas.py is not in src; shapes follow the spec
and every use site in the sources) -/

/-- Severity enumeration, CRITICAL highest (spec section 3). -/
inductive SeverityLevel where
  | CRITICAL
  | HIGH
  | MEDIUM
  | LOW
deriving DecidableEq, Repr

/-- Category enumeration, the fixed 13-value set (spec section 3). -/
inductive FlagCategory where
  | jurisdiction
  | financial
  | legal
  | operational
  | compliance
  | vague_language
  | missing_info
  | liability
  | intellectual_property
  | tax
  | employee
  | customer
  | other
deriving DecidableEq, Repr

/-- A single finding (`RedFlag` in models/schemas.py). -/
structure RedFlag where
  category : FlagCategory
  severity : SeverityLevel
  title : String
  description : String
  location : String
  score : Int
  source : String
  recommendation : Option String
deriving DecidableEq, Repr

/-! ### String primitives (structural implementations of the Python
string operations used by the sources) -/

/-- Python `str.lower()`: character-wise lowering. -/
def strToLower (s : String) : String :=
  String.mk (s.data.map Char.toLower)

/-- Python `s[:n]`: the first `n` characters. -/
def strTake (s : String) (n : Nat) : String :=
  String.mk (s.data.take n)

/-- Python `str.strip()`: drop leading and trailing whitespace. -/
def strStrip (s : String) : String :=
  String.mk (((s.data.dropWhile Char.isWhitespace).reverse.dropWhile Char.isWhitespace).reverse)

/-- Python `str.split()` (no separator): split on runs of whitespace,
discarding empty pieces; `acc` holds the current word reversed. -/
def splitWsAux : List Char → List Char → List String
  | [], acc => if acc.isEmpty then [] else [String.mk acc.reverse]
  | c :: cs, acc =>
    if c.isWhitespace then
      if acc.isEmpty then splitWsAux cs [] else String.mk acc.reverse :: splitWsAux cs []
    else splitWsAux cs (c :: acc)

/-! ### Aggregator: deduplication (dd_aggregator1.py, `ResultAggregator`) -/

/-- `_get_flag_key`: `f"{flag.title.lower()}|{flag.description[:100].lower()}"`. -/
def _get_flag_key (flag : RedFlag) : String :=
  strToLower flag.title ++ "|" ++ strToLower (strTake flag.description 100)

/-- The word set of a key: Python `set(key.split())` — whitespace split
with empty pieces discarded, duplicates removed. -/
def splitWords (key : String) : List String :=
  (splitWsAux key.data []).dedup

/-- `_are_similar`: Jaccard word-overlap test against the 0.7 threshold
(`self.similarity_threshold`). Empty word set on either side is never a
match. The float comparison `similarity >= 0.7` is idealized as the exact
rational comparison. -/
def _are_similar (key1 key2 : String) : Bool :=
  let words1 := splitWords key1
  let words2 := splitWords key2
  if words1.isEmpty || words2.isEmpty then false
  else
    let overlap := (words1.filter (fun w => words2.contains w)).length
    let union := words1.length + (words2.filter (fun w => !words1.contains w)).length
    let similarity : ℚ := if 0 < union then (overlap : ℚ) / (union : ℚ) else 0
    decide (7/10 ≤ similarity)

/-- The inner loop of `_deduplicate_flags` for one category group: process
flags in arrival order, keeping a flag unless its key is similar to an
already-accepted key (`seen_similar`); accepted keys accumulate. -/
def dedupLoop : List RedFlag → List String → List RedFlag
  | [], _ => []
  | flag :: rest, seen_similar =>
    let flag_key := _get_flag_key flag
    if seen_similar.any (fun seen_key => _are_similar flag_key seen_key) then
      dedupLoop rest seen_similar
    else
      flag :: dedupLoop rest (seen_similar ++ [flag_key])

/-- The distinct categories of a flag list in order of first occurrence:
the key order of the Python `defaultdict` built by insertion
(`by_category`), since Python dicts preserve insertion order. -/
def catKeys : List RedFlag → List FlagCategory → List FlagCategory
  | [], _ => []
  | flag :: rest, seen =>
    if flag.category ∈ seen then catKeys rest seen
    else flag.category :: catKeys rest (flag.category :: seen)

/-- The flags of one category group, in arrival order (the contents of
`by_category[category]`). -/
def byCategory (flags : List RedFlag) (c : FlagCategory) : List RedFlag :=
  flags.filter (fun f => decide (f.category = c))

/-- `_deduplicate_flags`: group by category (insertion order of first
occurrence), then run the similarity loop within each group and
concatenate the groups' survivors. -/
def _deduplicate_flags (flags : List RedFlag) : List RedFlag :=
  (catKeys flags []).flatMap (fun c => dedupLoop (byCategory flags c) [])

/-! ### Aggregator: sorting, counting and scoring -/

/-- The `severity_order` table used as first sort component. -/
def severity_order : SeverityLevel → Nat
  | .CRITICAL => 0
  | .HIGH => 1
  | .MEDIUM => 2
  | .LOW => 3

/-- The comparison realizing Python's ascending sort on the key
`(severity_order[f.severity], -f.score)`. -/
def flagOrder (a b : RedFlag) : Prop :=
  severity_order a.severity < severity_order b.severity ∨
    (severity_order a.severity = severity_order b.severity ∧ -a.score ≤ -b.score)

instance : DecidableRel flagOrder := fun a b => by
  unfold flagOrder
  infer_instance

instance : IsTotal RedFlag flagOrder := by
  constructor
  intro a b
  unfold flagOrder
  rcases Nat.lt_trichotomy (severity_order a.severity) (severity_order b.severity) with h | h | h
  · exact Or.inl (Or.inl h)
  · rcases le_total (-a.score) (-b.score) with h2 | h2
    · exact Or.inl (Or.inr ⟨h, h2⟩)
    · exact Or.inr (Or.inr ⟨h.symm, h2⟩)
  · exact Or.inr (Or.inl h)

instance : IsTrans RedFlag flagOrder := by
  constructor
  intro a b c hab hbc
  unfold flagOrder at *
  rcases hab with h1 | ⟨h1, h1s⟩
  · rcases hbc with h2 | ⟨h2, _⟩
    · exact Or.inl (h1.trans h2)
    · exact Or.inl (h2 ▸ h1)
  · rcases hbc with h2 | ⟨h2, h2s⟩
    · exact Or.inl (h1 ▸ h2)
    · exact Or.inr ⟨h1.trans h2, le_trans h1s h2s⟩

/-- `_count_by_severity`, read off as the count of flags at a given level. -/
def _count_by_severity (flags : List RedFlag) (s : SeverityLevel) : Nat :=
  (flags.filter (fun f => decide (f.severity = s))).length

/-- The `severity_weights` table of `_calculate_risk_score`. -/
def severity_weights : SeverityLevel → Int
  | .CRITICAL => 10
  | .HIGH => 5
  | .MEDIUM => 2
  | .LOW => 1

/-- Round-half-to-even to an integer, the rounding mode of Python's
built-in `round`. -/
def roundHalfEven (q : ℚ) : ℤ :=
  let f := Int.floor q
  let r := q - f
  if r < 1/2 then f
  else if 1/2 < r then f + 1
  else if f % 2 = 0 then f else f + 1

/-- Python `round(x, 2)` over the exact rational value. -/
def pyRound2 (q : ℚ) : ℚ :=
  (roundHalfEven (q * 100) : ℚ) / 100

/-- The loop body of `_calculate_risk_score`: add one flag's weighted
score to `weighted_sum` and its weight to `total_weight`. -/
def riskStep (acc : Int × Int) (flag : RedFlag) : Int × Int :=
  let weight := severity_weights flag.severity
  (acc.1 + flag.score * weight, acc.2 + weight)

/-- `_calculate_risk_score`: severity-weighted average of scores, rounded
to 2 decimals; 0.0 for an empty list (and for zero total weight, a branch
the code keeps although weights are all positive). The single Python loop
accumulating `weighted_sum` and `total_weight` is one fold of `riskStep`
over a pair. -/
def _calculate_risk_score (flags : List RedFlag) : ℚ :=
  if flags.isEmpty then 0
  else
    let acc := flags.foldl riskStep (0, 0)
    if acc.2 = 0 then 0
    else pyRound2 ((acc.1 : ℚ) / (acc.2 : ℚ))

/-- The report produced by `ResultAggregator.aggregate` (`AnalysisResult`
in models/schemas.py); the metadata dict is flattened into fields. -/
structure AnalysisResult where
  document_name : String
  analyzed_at : Int
  total_flags : Nat
  critical_count : Nat
  high_count : Nat
  medium_count : Nat
  low_count : Nat
  overall_risk_score : ℚ
  flags : List RedFlag
  processing_time_seconds : ℚ
  rule_flags_count : Nat
  llm_flags_count : Nat
  deduplication_removed : Nat
deriving DecidableEq, Repr

/-- `ResultAggregator.aggregate`: concatenate rule flags before LLM flags,
deduplicate, stably sort by `(severity_order, -score)` (Python `list.sort`
is a stable sort; `List.insertionSort` is the stable sort realizing the
same comparator), count, score, and assemble the report. `datetime.now()`
is passed in as `now`. -/
def aggregate (document_name : String) (rule_flags llm_flags : List RedFlag)
    (processing_time : ℚ) (now : Int) : AnalysisResult :=
  let all_flags := rule_flags ++ llm_flags
  let deduplicated := _deduplicate_flags all_flags
  let sorted := List.insertionSort flagOrder deduplicated
  { document_name := document_name
    analyzed_at := now
    total_flags := sorted.length
    critical_count := _count_by_severity sorted .CRITICAL
    high_count := _count_by_severity sorted .HIGH
    medium_count := _count_by_severity sorted .MEDIUM
    low_count := _count_by_severity sorted .LOW
    overall_risk_score := _calculate_risk_score sorted
    flags := sorted
    processing_time_seconds := pyRound2 processing_time
    rule_flags_count := rule_flags.length
    llm_flags_count := llm_flags.length
    deduplication_removed := all_flags.length - sorted.length }

/-! ### Spec-side definitions used to state the claims -/

/-- The spec's Jaccard similarity of two keys' whitespace-tokenized word
sets: `|intersection| / |union|`, defined as 0 when either token set is
empty. Written from the spec's words; the word sets are represented as
duplicate-free lists, so the filter lengths below are the cardinalities
of the set intersection and union. -/
def jaccardSim (key1 key2 : String) : ℚ :=
  let w1 := splitWords key1
  let w2 := splitWords key2
  if w1.isEmpty ∨ w2.isEmpty then 0
  else ((w1.filter (fun w => w2.contains w)).length : ℚ) /
    ((w1.length + (w2.filter (fun w => !w1.contains w)).length : ℕ) : ℚ)

/-- The spec's overall risk formula before rounding: weighted mean of
scores with severity weights CRITICAL 10, HIGH 5, MEDIUM 2, LOW 1.
Written from the spec's words, to be compared with
`_calculate_risk_score`. -/
def specWeightedMean (flags : List RedFlag) : ℚ :=
  ((flags.map (fun f => (severity_weights f.severity : ℚ) * (f.score : ℚ))).sum) /
    ((flags.map (fun f => (severity_weights f.severity : ℚ))).sum)

/-- Keep/drop decisions of the dedup loop computed from keys alone:
a key is dropped when similar to an earlier accepted key, otherwise it is
accepted (first to introduce a key wins). -/
def keepMask : List String → List String → List Bool
  | [], _ => []
  | k :: ks, seen =>
    if seen.any (fun s => _are_similar k s) then false :: keepMask ks seen
    else true :: keepMask ks (seen ++ [k])

/-- Filter a list by a parallel Boolean mask. -/
def maskFilter {α : Type} : List α → List Bool → List α
  | a :: as, b :: bs => if b then a :: maskFilter as bs else maskFilter as bs
  | _, _ => []

/-! ### Rule engine (dd_rule_engine2.py, `RuleEngine`)

The regex scans are embedded as explicit character-list scans with
Python `re` semantics for the concrete patterns involved: leftmost match,
greedy/lazy quantifier resolution, alternatives in order, non-overlapping
`finditer` restart at each match end, `IGNORECASE` via character-wise
lowering. Where a greedy sub-pattern is followed by a literal that cannot
begin inside that sub-pattern's character class (digits before a unit
word, whitespace before a digit), backtracking it can never succeed, so
the scan uses the maximal run directly. -/

/-- Python word character (`\w`) for the ASCII texts involved. -/
def isWordChar (c : Char) : Bool := c.isAlphanum || c == '_'

/-- A `\b` word boundary at index `i` of `cs` (positions outside the text
count as non-word). -/
def wordBoundaryAt (cs : List Char) (i : Nat) : Bool :=
  let before := if i = 0 then false else isWordChar (cs.getD (i - 1) ' ')
  let after := if i < cs.length then isWordChar (cs.getD i ' ') else false
  before != after

/-- A whole-word occurrence of (lowered) literal `pat` at index `i` of the
lowered text `lt`: the regex `\b{re.escape(pat)}\b`. -/
def wholeWordAt (lt pat : List Char) (i : Nat) : Bool :=
  pat.isPrefixOf (lt.drop i) && wordBoundaryAt lt i && wordBoundaryAt lt (i + pat.length)

/-- Non-overlapping left-to-right scan for whole-word occurrences
(`re.finditer`), returning start indices. -/
def scanOccsAux (lt pat : List Char) : Nat → Nat → List Nat
  | _, 0 => []
  | i, fuel + 1 =>
    if lt.length < i + pat.length then []
    else if wholeWordAt lt pat i then i :: scanOccsAux lt pat (i + pat.length) fuel
    else scanOccsAux lt pat (i + 1) fuel

/-- All whole-word occurrence positions of `pat` in `lt`. -/
def scanOccs (lt pat : List Char) : List Nat :=
  scanOccsAux lt pat 0 (lt.length + 1)

/-- Python substring containment (`pat in hay`). -/
def containsSub (hay pat : List Char) : Bool :=
  (List.range (hay.length + 1)).any (fun i => pat.isPrefixOf (hay.drop i))

/-- `RuleEngine._get_context`: clamp a ±150-character window to the text,
strip surrounding whitespace, and mark clipped ends with an ellipsis. -/
def _get_context (text : String) (start stop : Nat) : String :=
  let n := text.data.length
  let context_start := start - 150
  let context_end := min n (stop + 150)
  let context := strStrip (String.mk ((text.data.drop context_start).take (context_end - context_start)))
  let context := if 0 < context_start then "..." ++ context else context
  if context_end < n then context ++ "..." else context

/-- Modelled from the spec: `utils/config.py` (the Pattern Library) is not
in src. The spec describes it as pure data — "lists of flagged
jurisdictions" — and its scenario names "Cayman Islands". No claim depends
on the concrete contents. -/
def OFFSHORE_JURISDICTIONS : List String :=
  ["Cayman Islands", "British Virgin Islands", "Bermuda", "Cyprus"]

/-- Modelled from the spec: vague-language markers of the Pattern Library
(`utils/config.py`, not in src); the spec's scenario names "reasonable". -/
def WEASEL_WORDS : List String :=
  ["reasonable", "material", "substantially", "approximately"]

/-- Modelled from the spec: deferred-disclosure phrase templates of the
Pattern Library (`utils/config.py`, not in src). -/
def HIGH_RISK_PHRASES : List String :=
  ["to be provided", "subject to completion", "under negotiation"]

/-- `_check_offshore_jurisdictions`: one Finding per whole-word occurrence
of each configured jurisdiction; severity escalates to CRITICAL (score 9)
when the ±150-character context mentions governing law, arbitration or
dispute resolution, else HIGH (score 7). -/
def _check_offshore_jurisdictions (text : String) : List RedFlag :=
  let lt := text.data.map Char.toLower
  OFFSHORE_JURISDICTIONS.flatMap (fun jurisdiction =>
    (scanOccs lt (jurisdiction.data.map Char.toLower)).map (fun i =>
      let context := _get_context text i (i + jurisdiction.length)
      let isCrit := ["governing law", "arbitration", "dispute resolution"].any
        (fun keyword => containsSub (context.data.map Char.toLower) keyword.data)
      { category := .jurisdiction
        severity := if isCrit then .CRITICAL else .HIGH
        title := "Offshore Jurisdiction: " ++ jurisdiction
        description := "Document references " ++ jurisdiction ++
          ", which may indicate jurisdiction shopping or regulatory arbitrage."
        location := context
        score := if isCrit then 9 else 7
        source := "rule_engine"
        recommendation := some ("Require arbitration in neutral jurisdiction (Delaware, New York, or London). " ++
          "Investigate why offshore jurisdiction was chosen.") }))

/-- `_check_weasel_words`: count whole-word occurrences of each configured
weasel word; only counts above 3 produce a Finding (MEDIUM, score 5),
anchored at the first occurrence. -/
def _check_weasel_words (text : String) : List RedFlag :=
  let lt := text.data.map Char.toLower
  WEASEL_WORDS.flatMap (fun word =>
    let occs := scanOccs lt (word.data.map Char.toLower)
    if 3 < occs.length then
      match occs with
      | [] => []
      | first :: _ =>
        [{ category := .vague_language
           severity := .MEDIUM
           title := "Excessive Vague Language: \x27" ++ word ++ "\x27 (" ++ toString occs.length ++ "x)"
           description := "Term \x27" ++ word ++ "\x27 appears " ++ toString occs.length ++
             " times. Vague language creates ambiguity and potential for disputes."
           location := _get_context text first (first + word.length)
           score := 5
           source := "rule_engine"
           recommendation := some ("Request specific definitions and thresholds. Replace \x27" ++
             word ++ "\x27 with measurable criteria.") }]
    else [])

/-- `_check_high_risk_phrases`: one HIGH (score 8) Finding per whole-word
occurrence of each configured deferred-disclosure phrase. -/
def _check_high_risk_phrases (text : String) : List RedFlag :=
  let lt := text.data.map Char.toLower
  HIGH_RISK_PHRASES.flatMap (fun phrase =>
    (scanOccs lt (phrase.data.map Char.toLower)).map (fun i =>
      { category := .missing_info
        severity := .HIGH
        title := "Deferred Disclosure: \x27" ++ phrase ++ "\x27"
        description := "Critical information is deferred or incomplete. This is a major red flag - " ++
          "you\x27re signing before having full information."
        location := _get_context text i (i + phrase.length)
        score := 8
        source := "rule_engine"
        recommendation := some ("STOP. Do not sign until all referenced information is provided " ++
          "and reviewed. No post-closing surprises.") }))

/-- The fixed indicator list of `_check_missing_schedules`, in source
order. -/
def missing_indicators : List String :=
  ["being finalized", "to be provided", "being compiled", "will be attached", "to be determined"]

/-- `re.search(rf".\x7b0,100\x7d{indicator}.\x7b0,100\x7d", text, re.IGNORECASE)`:
leftmost start, then greedy up-to-100 non-newline characters on each side
of the (case-insensitively matched) indicator; returns the matched span of
the original text. -/
def searchSchedule (text : String) (indicator : String) : Option String :=
  let cs := text.data
  let lt := cs.map Char.toLower
  let lind := indicator.data.map Char.toLower
  (List.range (cs.length + 1)).findSome? (fun s =>
    (((List.range 101).reverse).findSome? (fun a =>
      if decide (s + a + lind.length ≤ cs.length)
          && ((lt.drop s).take a).all (fun c => c != '\n')
          && lind.isPrefixOf (lt.drop (s + a))
      then some a else none)).map (fun a =>
        let matchStop := s + a + lind.length
        let b := (((cs.drop matchStop).take 100).takeWhile (fun c => c != '\n')).length
        String.mk ((cs.drop s).take (a + lind.length + b))))

/-- The single Finding built by `_check_missing_schedules` for the winning
indicator. -/
def mkScheduleFlag (indicator context : String) : RedFlag :=
  { category := .missing_info
    severity := .CRITICAL
    title := "Missing or Incomplete Schedules"
    description := "Schedules are incomplete: \x27" ++ indicator ++
      "\x27. Never sign with missing schedules."
    location := context
    score := 10
    source := "rule_engine"
    recommendation := some ("Require all schedules to be completed and attached before " ++
      "signing. Missing schedules = unknown liabilities.") }

/-- The indicator loop of `_check_missing_schedules`: try indicators in
list order; on the first one contained in the lowered text
(`indicator in text.lower()`) whose context search succeeds, emit a single
CRITICAL (score 10) Finding and stop. -/
def schedLoop (text : String) : List String → List RedFlag
  | [] => []
  | indicator :: rest =>
    if containsSub (text.data.map Char.toLower) indicator.data then
      match searchSchedule text indicator with
      | some context => [mkScheduleFlag indicator context]
      | none => schedLoop text rest
    else schedLoop text rest

/-- `_check_missing_schedules`. The source also computes
`referenced_schedules` by a `findall`, but never reads it; that dead value
is omitted. -/
def _check_missing_schedules (text : String) : List RedFlag :=
  schedLoop text missing_indicators

/-- Numeric value of a digit run (Python `int(...)` on captured digits). -/
def natOfDigits (run : List Char) : Nat :=
  run.foldl (fun n c => n * 10 + (c.toNat - '0'.toNat)) 0

/-- One attempt of the audit-date pattern
`audit(?:ed)?[^.]\x7b0,50\x7d(?:19|20)(\d\x7b2\x7d)` at start `s` of the
lowered text: optional `ed` greedy, then a greedy up-to-50 run of
non-period characters, then a century literal and a captured two-digit
year. Returns the match end and the captured two-digit value. -/
def dateTryAt (lt : List Char) (s : Nat) : Option (Nat × Nat) :=
  if ("audit".data).isPrefixOf (lt.drop s) then
    let bases := if ("ed".data).isPrefixOf (lt.drop (s + 5)) then [s + 7, s + 5] else [s + 5]
    bases.findSome? (fun base =>
      ((List.range 51).reverse).findSome? (fun g =>
        if decide (base + g + 4 ≤ lt.length)
            && ((lt.drop base).take g).all (fun c => c != '.') then
          let p := base + g
          if ("19".data).isPrefixOf (lt.drop p) || ("20".data).isPrefixOf (lt.drop p) then
            let d1 := lt.getD (p + 2) ' '
            let d2 := lt.getD (p + 3) ' '
            if d1.isDigit && d2.isDigit then
              some (p + 4, (d1.toNat - '0'.toNat) * 10 + (d2.toNat - '0'.toNat))
            else none
          else none
        else none))
  else none

/-- Non-overlapping `finditer` scan for the audit-date pattern, returning
(start, end, captured two-digit year) triples. -/
def dateScan (lt : List Char) : Nat → Nat → List (Nat × Nat × Nat)
  | _, 0 => []
  | i, fuel + 1 =>
    if lt.length < i + 9 then []
    else
      match dateTryAt lt i with
      | some (e, yr) => (i, e, yr) :: dateScan lt e fuel
      | none => dateScan lt (i + 1) fuel

/-- `_check_date_anomalies`: two-digit years above 50 resolve to 19xx,
others to 20xx; resolved years before 2023 yield one HIGH (score 7)
Finding per match. -/
def _check_date_anomalies (text : String) : List RedFlag :=
  let lt := text.data.map Char.toLower
  (dateScan lt 0 (lt.length + 1)).flatMap (fun m =>
    let year := m.2.2
    let full_year := if 50 < year then 1900 + year else 2000 + year
    if full_year < 2023 then
      [{ category := .financial
         severity := .HIGH
         title := "Outdated Financial Audit (" ++ toString full_year ++ ")"
         description := "Most recent audit mentioned is from " ++ toString full_year ++
           ", which is too old to be reliable."
         location := _get_context text m.1 m.2.1
         score := 7
         source := "rule_engine"
         recommendation := some ("Require current audited financials (within 12 months). " ++
           "Outdated audits hide recent problems.") }]
    else [])

/-- Resolution of `.*(?:alt1|alt2|...)` under `re.DOTALL`: the greedy gap
takes the largest extent at which some alternative (tried in order)
matches; returns the match end. -/
def dotallTail (lt : List Char) (start : Nat) (alts : List (List Char)) : Option Nat :=
  ((List.range (lt.length - start + 1)).reverse).findSome? (fun d =>
    alts.findSome? (fun alt =>
      if alt.isPrefixOf (lt.drop (start + d)) then some (start + d + alt.length) else none))

/-- Non-overlapping scan for `head.*(?:alts)` with `re.DOTALL`, returning
(start, end) spans. -/
def paymentScan (lt head : List Char) (alts : List (List Char)) : Nat → Nat → List (Nat × Nat)
  | _, 0 => []
  | i, fuel + 1 =>
    if lt.length < i + head.length then []
    else if head.isPrefixOf (lt.drop i) then
      match dotallTail lt (i + head.length) alts with
      | some e => (i, e) :: paymentScan lt head alts e fuel
      | none => paymentScan lt head alts (i + 1) fuel
    else paymentScan lt head alts (i + 1) fuel

/-- One entry of the `red_flags` pattern table of
`_check_payment_red_flags` (dict insertion order preserved). -/
structure PaymentEntry where
  head : String
  alts : List String
  title : String
  severity : SeverityLevel
  score : Int
  recommendation : String

/-- The `red_flags` table of `_check_payment_red_flags`, in source order. -/
def payment_red_flags : List PaymentEntry :=
  [{ head := "earnout"
     alts := ["undefined", "to be determined", "mutually agreed"]
     title := "Undefined Earnout Targets"
     severity := .CRITICAL
     score := 10
     recommendation := "Never accept undefined earnout metrics. Specify exact EBITDA/revenue targets and calculation methods." },
   { head := "deferred"
     alts := ["performance metrics", "to be determined"]
     title := "Undefined Deferred Payment Terms"
     severity := .HIGH
     score := 8
     recommendation := "All deferred payment triggers must be clearly defined at signing." }]

/-- `_check_payment_red_flags`: each table entry's pattern is scanned
case-insensitively with dot-matches-newline; every match yields one
Finding with the entry's fixed metadata. -/
def _check_payment_red_flags (text : String) : List RedFlag :=
  let lt := text.data.map Char.toLower
  payment_red_flags.flatMap (fun entry =>
    (paymentScan lt entry.head.data (entry.alts.map String.data) 0 (lt.length + 1)).map (fun m =>
      { category := .financial
        severity := entry.severity
        title := entry.title
        description := "Payment terms are incomplete or subject to future agreement. This creates massive dispute risk."
        location := _get_context text m.1 m.2
        score := entry.score
        source := "rule_engine"
        recommendation := some entry.recommendation }))

/-- The tail `(\d+)\s*(?:months?|days?)` of the liability pattern at
position `p`: a maximal captured digit run, maximal whitespace, then a
unit word with optional plural `s`. Returns the match end and the
captured number. -/
def liabTailAt (lt : List Char) (p : Nat) : Option (Nat × Nat) :=
  let run := (lt.drop p).takeWhile Char.isDigit
  if run.length = 0 then none
  else
    let p2 := p + run.length
    let p3 := p2 + ((lt.drop p2).takeWhile Char.isWhitespace).length
    let unitEnd :=
      if ("month".data).isPrefixOf (lt.drop p3) then
        some (p3 + 5 + (if lt.getD (p3 + 5) ' ' == 's' then 1 else 0))
      else if ("day".data).isPrefixOf (lt.drop p3) then
        some (p3 + 3 + (if lt.getD (p3 + 3) ' ' == 's' then 1 else 0))
      else none
    unitEnd.map (fun e => (e, natOfDigits run))

/-- Non-overlapping scan for
`(?:surviv|representations).*?(\d+)\s*(?:months?|days?)`: lazy non-newline
gap after the head alternative, then the numeric tail. Returns
(start, end, captured number) triples. -/
def liabScan (lt : List Char) : Nat → Nat → List (Nat × Nat × Nat)
  | _, 0 => []
  | i, fuel + 1 =>
    if lt.length ≤ i then []
    else
      let headLen :=
        if ("surviv".data).isPrefixOf (lt.drop i) then some 6
        else if ("representations".data).isPrefixOf (lt.drop i) then some 15
        else none
      match headLen with
      | some hl =>
        match (List.range (lt.length - (i + hl) + 1)).findSome? (fun d =>
            if ((lt.drop (i + hl)).take d).all (fun c => c != '\n') then
              liabTailAt lt (i + hl + d)
            else none) with
        | some (e, num) => (i, e, num) :: liabScan lt e fuel
        | none => liabScan lt (i + 1) fuel
      | none => liabScan lt (i + 1) fuel

/-- `_check_liability_limitations`: captured survival periods below 12
yield one HIGH (score 7) Finding per match. -/
def _check_liability_limitations (text : String) : List RedFlag :=
  let lt := text.data.map Char.toLower
  (liabScan lt 0 (lt.length + 1)).flatMap (fun m =>
    let period := m.2.2
    if period < 12 then
      [{ category := .liability
         severity := .HIGH
         title := "Short Survival Period (" ++ toString period ++ " months)"
         description := "Representations survive only " ++ toString period ++
           " months. Industry standard is 18-24 months minimum."
         location := _get_context text m.1 m.2.1
         score := 7
         source := "rule_engine"
         recommendation := some ("Negotiate longer survival period (minimum 18 months). " ++
           toString period ++ " months is insufficient for most issues to surface.") }]
    else [])

/-- The head `top\s+\d+\s+customers?` of the concentration pattern at
position `i`: maximal whitespace and digit runs (backtracking them can
never help, as argued above). Returns the end of the head match. -/
def custHeadAt (lt : List Char) (i : Nat) : Option Nat :=
  if ("top".data).isPrefixOf (lt.drop i) then
    let p1 := i + 3
    let w1 := ((lt.drop p1).takeWhile Char.isWhitespace).length
    if w1 = 0 then none
    else
      let p2 := p1 + w1
      let d1 := ((lt.drop p2).takeWhile Char.isDigit).length
      if d1 = 0 then none
      else
        let p3 := p2 + d1
        let w2 := ((lt.drop p3).takeWhile Char.isWhitespace).length
        if w2 = 0 then none
        else
          let p4 := p3 + w2
          if ("customer".data).isPrefixOf (lt.drop p4) then
            some (p4 + 8 + (if lt.getD (p4 + 8) ' ' == 's' then 1 else 0))
          else none
  else none

/-- The tail `. *?(\d+)%` (lazy non-newline gap, captured digit run, then
a percent sign) from `start`. Returns the match end and the captured
percentage. -/
def custTail (lt : List Char) (start : Nat) : Option (Nat × Nat) :=
  (List.range (lt.length - start + 1)).findSome? (fun d =>
    if ((lt.drop start).take d).all (fun c => c != '\n') then
      let p := start + d
      let run := (lt.drop p).takeWhile Char.isDigit
      if run.length = 0 then none
      else if lt.getD (p + run.length) ' ' == '%' then
        some (p + run.length + 1, natOfDigits run)
      else none
    else none)

/-- Non-overlapping scan for `top\s+\d+\s+customers?.*?(\d+)%`, returning
(start, end, captured percentage) triples. -/
def custScan (lt : List Char) : Nat → Nat → List (Nat × Nat × Nat)
  | _, 0 => []
  | i, fuel + 1 =>
    if lt.length ≤ i then []
    else
      match custHeadAt lt i with
      | some hEnd =>
        match custTail lt hEnd with
        | some (e, pct) => (i, e, pct) :: custScan lt e fuel
        | none => custScan lt (i + 1) fuel
      | none => custScan lt (i + 1) fuel

/-- `_check_customer_concentration`: captured percentages above 50 yield a
Finding; above 70 it is CRITICAL (score 9), otherwise HIGH (score 7). -/
def _check_customer_concentration (text : String) : List RedFlag :=
  let lt := text.data.map Char.toLower
  (custScan lt 0 (lt.length + 1)).flatMap (fun m =>
    let percentage := m.2.2
    if 50 < percentage then
      [{ category := .customer
         severity := if 70 < percentage then .CRITICAL else .HIGH
         title := "High Customer Concentration (" ++ toString percentage ++ "%)"
         description := "Top customers represent " ++ toString percentage ++
           "% of revenue. Loss of any major customer could be catastrophic."
         location := _get_context text m.1 m.2.1
         score := if 70 < percentage then 9 else 7
         source := "rule_engine"
         recommendation := some ("Require customer retention agreements, escrow protection, " ++
           "or earnout tied to customer retention.") }]
    else [])

/-- The `RuleEngine` object: its only state is the `self.flags`
accumulator. -/
structure RuleEngine where
  flags : List RedFlag
deriving DecidableEq, Repr

/-- `RuleEngine.analyze`: reset `self.flags` to empty, run the eight
checks in registration order (each appends its findings to the
accumulator), and return the accumulated list together with the
post-call engine state. -/
def RuleEngine.analyze (self : RuleEngine) (full_text : String) : List RedFlag × RuleEngine :=
  let flags0 : List RedFlag := []
  let flags1 := flags0 ++ _check_offshore_jurisdictions full_text
  let flags2 := flags1 ++ _check_weasel_words full_text
  let flags3 := flags2 ++ _check_high_risk_phrases full_text
  let flags4 := flags3 ++ _check_missing_schedules full_text
  let flags5 := flags4 ++ _check_date_anomalies full_text
  let flags6 := flags5 ++ _check_payment_red_flags full_text
  let flags7 := flags6 ++ _check_liability_limitations full_text
  let flags8 := flags7 ++ _check_customer_concentration full_text
  (flags8, { self with flags := flags8 })

/-! ### Semantic-analysis adapter parsing (dd_llm_analyzer4.py,
`LLMAnalyzer._parse_llm_response`) -/

/-- The string spellings of the category enumeration, as listed in the
analysis prompt and the spec. -/
def categoryStrings : List (String × FlagCategory) :=
  [("jurisdiction", .jurisdiction), ("financial", .financial), ("legal", .legal),
   ("operational", .operational), ("compliance", .compliance),
   ("vague_language", .vague_language), ("missing_info", .missing_info),
   ("liability", .liability), ("intellectual_property", .intellectual_property),
   ("tax", .tax), ("employee", .employee), ("customer", .customer), ("other", .other)]

/-- The string spellings of the severity enumeration. -/
def severityStrings : List (String × SeverityLevel) :=
  [("CRITICAL", .CRITICAL), ("HIGH", .HIGH), ("MEDIUM", .MEDIUM), ("LOW", .LOW)]

/-- Modelled from the spec: the `FlagCategory` constructor of
models/schemas.py (not in src) as consumed by `_parse_llm_response`.
Spec section 6: "each Finding must carry a `category` drawn from the fixed
enumeration (unrecognized values must be coerced to `other`)". -/
def FlagCategory.fromString (s : String) : FlagCategory :=
  match categoryStrings.find? (fun p => p.1 == s) with
  | some p => p.2
  | none => .other

/-- Modelled from the spec: the `SeverityLevel` constructor of
models/schemas.py (not in src) as consumed by `_parse_llm_response`.
Spec section 6: severity "from the fixed enumeration (unrecognized values
coerced to `MEDIUM`)". -/
def SeverityLevel.fromString (s : String) : SeverityLevel :=
  match severityStrings.find? (fun p => p.1 == s) with
  | some p => p.2
  | none => .MEDIUM

/-- One decoded JSON object of the model's response array: each field is
present or absent (`item.get(...)`); `score` is modelled as an already
decoded integer. -/
structure LLMItem where
  category : Option String
  severity : Option String
  title : Option String
  description : Option String
  quote : Option String
  location : Option String
  score : Option Int
  recommendation : Option String
deriving DecidableEq, Repr

/-- The per-item mapping of `_parse_llm_response`: defaults follow
`item.get(...)` fallbacks (`"other"`, `"MEDIUM"`, `"Unspecified Issue"`,
`""`, `quote` before `location`, score 5); `location` is truncated to 500
characters. With the spec's coercing enumeration constructors the per-item
`except` branch is unreachable for category/severity values, so every
item yields a flag. -/
def parseItemFlag (source : String) (item : LLMItem) : RedFlag :=
  { category := FlagCategory.fromString (item.category.getD "other")
    severity := SeverityLevel.fromString (item.severity.getD "MEDIUM")
    title := item.title.getD "Unspecified Issue"
    description := item.description.getD ""
    location := strTake (item.quote.getD (item.location.getD "")) 500
    score := item.score.getD 5
    source := source
    recommendation := item.recommendation }

/-- `_parse_llm_response` restricted to an already-decoded array of
items: map each item to a `RedFlag`. -/
def _parse_llm_response (items : List LLMItem) (source : String) : List RedFlag :=
  items.map (parseItemFlag source)

/-- `catKeys` computed from category values alone (used to express that
grouping depends only on the category sequence). -/
def catKeysC : List FlagCategory → List FlagCategory → List FlagCategory
  | [], _ => []
  | c :: rest, seen =>
    if c ∈ seen then catKeysC rest seen
    else c :: catKeysC rest (c :: seen)

/-- Sample finding used in concrete instances: a jurisdiction flag. -/
def sampleJur : RedFlag :=
  { category := .jurisdiction, severity := .HIGH, title := "alpha", description := "one",
    location := "", score := 7, source := "rule_engine", recommendation := none }

/-- Sample finding used in concrete instances: a financial flag. -/
def sampleFin : RedFlag :=
  { category := .financial, severity := .CRITICAL, title := "beta", description := "two",
    location := "", score := 9, source := "rule_engine", recommendation := none }

/-- Sample finding used in concrete instances: a second jurisdiction flag
with a dissimilar key. -/
def sampleJur2 : RedFlag :=
  { category := .jurisdiction, severity := .LOW, title := "gamma", description := "three",
    location := "", score := 2, source := "claude", recommendation := none }

/-- Sample finding used in concrete instances: a CRITICAL flag with
score 10. -/
def sampleCrit : RedFlag :=
  { category := .missing_info, severity := .CRITICAL, title := "delta", description := "four",
    location := "", score := 10, source := "rule_engine", recommendation := none }

/-- Sample item whose category and severity strings are outside the fixed
enumerations. -/
def sampleBadItem : LLMItem :=
  { category := some "weird", severity := some "SEVERE", title := some "t",
    description := some "d", quote := none, location := none, score := some 4,
    recommendation := none }

/-- The similarity test with the threshold comparison cross-multiplied
into natural numbers (`overlap / union >= 0.7  <=>  7*union <= 10*overlap`
for positive `union`); proved equal to `_are_similar` below, and usable
for concrete evaluation. -/
def are_similar_calc (key1 key2 : String) : Bool :=
  let words1 := splitWords key1
  let words2 := splitWords key2
  if words1.isEmpty || words2.isEmpty then false
  else
    let overlap := (words1.filter (fun w => words2.contains w)).length
    let union := words1.length + (words2.filter (fun w => !words1.contains w)).length
    decide (7 * union <= 10 * overlap)

/-- `dedupLoop` with the cross-multiplied similarity test. -/
def dedupLoopCalc : List RedFlag → List String → List RedFlag
  | [], _ => []
  | flag :: rest, seen_similar =>
    let flag_key := _get_flag_key flag
    if seen_similar.any (fun seen_key => are_similar_calc flag_key seen_key) then
      dedupLoopCalc rest seen_similar
    else
      flag :: dedupLoopCalc rest (seen_similar ++ [flag_key])

/-- `_deduplicate_flags` with the cross-multiplied similarity test. -/
def deduplicateCalc (flags : List RedFlag) : List RedFlag :=
  (catKeys flags []).flatMap (fun c => dedupLoopCalc (byCategory flags c) [])

/-! ## Lemmas about deduplication -/

theorem dedupLoop_eq_maskFilter (gs : List RedFlag) (seen : List String) :
    dedupLoop gs seen = maskFilter gs (keepMask (gs.map _get_flag_key) seen) := by
  induction gs generalizing seen with
  | nil => rfl
  | cons f fs ih =>
    simp only [dedupLoop, List.map, keepMask]
    by_cases h : (seen.any (fun seen_key => _are_similar (_get_flag_key f) seen_key)) = true
    · simp [h, maskFilter, ih]
    · simp [h, maskFilter, ih]

theorem maskFilter_map {α β : Type} (g : α → β) :
    ∀ (l : List α) (bs : List Bool), (maskFilter l bs).map g = maskFilter (l.map g) bs := by
  intro l
  induction l with
  | nil => intro bs; cases bs <;> rfl
  | cons a as ih =>
    intro bs
    cases bs with
    | nil => rfl
    | cons b bs2 => cases b <;> simp [maskFilter, ih]

theorem dedupLoop_sublist (gs : List RedFlag) (seen : List String) :
    (dedupLoop gs seen).Sublist gs := by
  induction gs generalizing seen with
  | nil => simp [dedupLoop]
  | cons f fs ih =>
    simp only [dedupLoop]
    by_cases h : (seen.any (fun seen_key => _are_similar (_get_flag_key f) seen_key)) = true
    · simp only [h, if_true]
      exact (ih seen).cons f
    · simp only [h, if_false]
      exact (ih _).cons₂ f

theorem dedupLoop_idem (gs : List RedFlag) (seen : List String) :
    dedupLoop (dedupLoop gs seen) seen = dedupLoop gs seen := by
  induction gs generalizing seen with
  | nil => rfl
  | cons f fs ih =>
    simp only [dedupLoop]
    by_cases h : (seen.any (fun seen_key => _are_similar (_get_flag_key f) seen_key)) = true
    · simp only [h, if_true]
      exact ih seen
    · simp only [h, if_false]
      simp only [dedupLoop, h]
      simp [ih]

theorem mem_catKeys {c : FlagCategory} :
    ∀ (flags : List RedFlag) (seen : List FlagCategory),
      c ∈ catKeys flags seen ↔ c ∉ seen ∧ ∃ f ∈ flags, f.category = c := by
  intro flags
  induction flags with
  | nil => intro seen; simp [catKeys]
  | cons f fs ih =>
    intro seen
    simp only [catKeys]
    by_cases h : f.category ∈ seen
    · rw [if_pos h, ih]
      constructor
      · rintro ⟨h1, g, hg, hc⟩
        exact ⟨h1, g, List.mem_cons_of_mem f hg, hc⟩
      · rintro ⟨h1, g, hg, hc⟩
        rcases List.mem_cons.mp hg with rfl | hg2
        · exact absurd (hc ▸ h) h1
        · exact ⟨h1, g, hg2, hc⟩
    · rw [if_neg h]
      constructor
      · intro hmem
        rcases List.mem_cons.mp hmem with rfl | hmem2
        · exact ⟨h, f, List.mem_cons_self f fs, rfl⟩
        · obtain ⟨h1, g, hg, hc⟩ := (ih _).mp hmem2
          exact ⟨fun hs => h1 (List.mem_cons_of_mem _ hs), g, List.mem_cons_of_mem f hg, hc⟩
      · rintro ⟨h1, g, hg, hc⟩
        rcases List.mem_cons.mp hg with rfl | hg2
        · exact List.mem_cons.mpr (Or.inl hc.symm)
        · by_cases hc2 : c = f.category
          · exact List.mem_cons.mpr (Or.inl hc2)
          · refine List.mem_cons.mpr (Or.inr ((ih _).mpr ⟨?_, g, hg2, hc⟩))
            intro hcs
            rcases List.mem_cons.mp hcs with h3 | h3
            · exact hc2 h3
            · exact h1 h3

theorem catKeys_nodup_disjoint :
    ∀ (flags : List RedFlag) (seen : List FlagCategory),
      (catKeys flags seen).Nodup ∧ ∀ c ∈ catKeys flags seen, c ∉ seen := by
  intro flags
  induction flags with
  | nil => intro seen; simp [catKeys]
  | cons f fs ih =>
    intro seen
    simp only [catKeys]
    by_cases h : f.category ∈ seen
    · simpa [h] using ih seen
    · rw [if_neg h]
      obtain ⟨hnd, hdisj⟩ := ih (f.category :: seen)
      constructor
      · rw [List.nodup_cons]
        exact ⟨fun hmem => (hdisj _ hmem) (List.mem_cons_self _ _), hnd⟩
      · intro c hc
        rcases List.mem_cons.mp hc with rfl | hc2
        · exact h
        · exact fun hs => (hdisj c hc2) (List.mem_cons_of_mem _ hs)

theorem category_of_mem_byCategory {flags : List RedFlag} {c : FlagCategory} {f : RedFlag}
    (h : f ∈ byCategory flags c) : f.category = c := by
  simpa using (List.of_mem_filter h)

theorem filter_cat_eq_self {l : List RedFlag} {c : FlagCategory}
    (h : ∀ f ∈ l, f.category = c) : l.filter (fun f => decide (f.category = c)) = l :=
  List.filter_eq_self.mpr (by intro f hf; simpa using h f hf)

theorem filter_cat_eq_nil {l : List RedFlag} {c c' : FlagCategory} (hne : c ≠ c')
    (h : ∀ f ∈ l, f.category = c) : l.filter (fun f => decide (f.category = c')) = [] := by
  rw [List.filter_eq_nil_iff]
  intro f hf
  simpa using fun he => hne ((h f hf) ▸ he)

theorem filter_flatMap {α β : Type} (l : List α) (g : α → List β) (p : β → Bool) :
    (l.flatMap g).filter p = l.flatMap (fun a => (g a).filter p) := by
  induction l with
  | nil => rfl
  | cons a as ih => simp [List.flatMap_cons, List.filter_append, ih]

theorem flatMap_single {β : Type} :
    ∀ (cs : List FlagCategory) (g : FlagCategory → List β) (c : FlagCategory),
      cs.Nodup → (∀ c' ∈ cs, c' ≠ c → g c' = []) →
      cs.flatMap g = if c ∈ cs then g c else [] := by
  intro cs
  induction cs with
  | nil => simp
  | cons a as ih =>
    intro g c hnd hz
    rw [List.flatMap_cons]
    by_cases hac : a = c
    · subst hac
      have hrest : as.flatMap g = [] := by
        apply List.flatMap_eq_nil_iff.mpr
        intro x hx
        exact hz x (List.mem_cons_of_mem _ hx) (fun hxa => ((List.nodup_cons.mp hnd).1 (hxa ▸ hx)))
      simp [hrest, List.mem_cons]
    · rw [ih g c (List.nodup_cons.mp hnd).2 (fun c' h' => hz c' (List.mem_cons_of_mem _ h'))]
      have ha : g a = [] := hz a (List.mem_cons_self _ _) hac
      have hca : ¬(c = a) := fun hh => hac hh.symm
      by_cases hc : c ∈ as <;> simp [ha, hc, List.mem_cons, hca]

theorem dedup_filter (flags : List RedFlag) (c : FlagCategory) :
    (_deduplicate_flags flags).filter (fun f => decide (f.category = c)) =
      dedupLoop (byCategory flags c) [] := by
  unfold _deduplicate_flags
  rw [filter_flatMap]
  have hmemcat : ∀ c', ∀ f ∈ dedupLoop (byCategory flags c') [], f.category = c' := by
    intro c' f hf
    exact category_of_mem_byCategory ((dedupLoop_sublist _ _).mem hf)
  rw [flatMap_single (catKeys flags []) _ c (catKeys_nodup_disjoint flags []).1
    (by
      intro c' hc' hne
      exact filter_cat_eq_nil hne (hmemcat c'))]
  by_cases hc : c ∈ catKeys flags []
  · rw [if_pos hc]
    exact filter_cat_eq_self (hmemcat c)
  · rw [if_neg hc]
    have : byCategory flags c = [] := by
      rw [byCategory, List.filter_eq_nil_iff]
      intro f hf
      simp only [decide_eq_true_eq]
      intro he
      exact hc ((mem_catKeys flags []).mpr ⟨List.not_mem_nil c, f, hf, he⟩)
    rw [this]
    rfl


theorem catKeys_eq_catKeysC :
    ∀ (flags : List RedFlag) (seen : List FlagCategory),
      catKeys flags seen = catKeysC (flags.map (fun f => f.category)) seen := by
  intro flags
  induction flags with
  | nil => intro seen; rfl
  | cons f fs ih =>
    intro seen
    simp only [catKeys, List.map_cons, catKeysC]
    by_cases h : f.category ∈ seen <;> simp [h, ih]

theorem catKeysC_replicate_mem {c : FlagCategory} (n : Nat) (l seen : List FlagCategory)
    (h : c ∈ seen) : catKeysC (List.replicate n c ++ l) seen = catKeysC l seen := by
  induction n with
  | zero => rfl
  | succ n ih => simp [List.replicate_succ, catKeysC, h, ih]

theorem catKeysC_flatMap_replicate :
    ∀ (cs : List FlagCategory) (n : FlagCategory → Nat) (seen : List FlagCategory),
      cs.Nodup → (∀ c ∈ cs, c ∉ seen) → (∀ c ∈ cs, 0 < n c) →
      catKeysC (cs.flatMap (fun c => List.replicate (n c) c)) seen = cs := by
  intro cs
  induction cs with
  | nil => intro n seen _ _ _; rfl
  | cons a as ih =>
    intro n seen hnd hdis hpos
    rw [List.flatMap_cons]
    have hpa : 0 < n a := hpos a (List.mem_cons_self _ _)
    obtain ⟨m, hm⟩ : ∃ m, n a = m + 1 := ⟨n a - 1, by omega⟩
    rw [hm, List.replicate_succ]
    simp only [List.cons_append, catKeysC, List.append_eq]
    rw [if_neg (hdis a (List.mem_cons_self _ _))]
    congr 1
    rw [catKeysC_replicate_mem m _ _ (List.mem_cons_self a seen)]
    refine ih n (a :: seen) (List.nodup_cons.mp hnd).2 ?_
      (fun c hc => hpos c (List.mem_cons_of_mem _ hc))
    intro c hc hcs
    rcases List.mem_cons.mp hcs with rfl | h2
    · exact (List.nodup_cons.mp hnd).1 hc
    · exact hdis c (List.mem_cons_of_mem _ hc) h2

theorem map_cat_eq_replicate {l : List RedFlag} {c : FlagCategory}
    (h : ∀ f ∈ l, f.category = c) :
    l.map (fun f => f.category) = List.replicate l.length c := by
  induction l with
  | nil => rfl
  | cons f fs ih =>
    simp [List.replicate_succ, h f (List.mem_cons_self f fs),
      ih (fun g hg => h g (List.mem_cons_of_mem _ hg))]

theorem map_flatMap_lists {α β γ : Type} (l : List α) (g : α → List β) (m : β → γ) :
    (l.flatMap g).map m = l.flatMap (fun a => (g a).map m) := by
  induction l with
  | nil => rfl
  | cons a as ih => simp [List.flatMap_cons, ih]

theorem dedupGroup_all_cat (flags : List RedFlag) (c : FlagCategory) :
    ∀ f ∈ dedupLoop (byCategory flags c) [], f.category = c :=
  fun _ hf => category_of_mem_byCategory ((dedupLoop_sublist _ _).mem hf)

theorem dedup_map_category (flags : List RedFlag) :
    (_deduplicate_flags flags).map (fun f => f.category) =
      (catKeys flags []).flatMap
        (fun c => List.replicate (dedupLoop (byCategory flags c) []).length c) := by
  unfold _deduplicate_flags
  rw [map_flatMap_lists]
  exact congrArg _ (funext fun c => map_cat_eq_replicate (dedupGroup_all_cat flags c))

theorem dedupLoop_nil_ne_nil {gs : List RedFlag} (h : gs ≠ []) : dedupLoop gs [] ≠ [] := by
  cases gs with
  | nil => exact absurd rfl h
  | cons _ _ => simp [dedupLoop]

theorem byCategory_ne_nil {flags : List RedFlag} {c : FlagCategory}
    (h : c ∈ catKeys flags []) : byCategory flags c ≠ [] := by
  obtain ⟨-, f, hf, hc⟩ := (mem_catKeys flags []).mp h
  intro hnil
  have : f ∈ byCategory flags c := List.mem_filter.mpr ⟨hf, by simpa using hc⟩
  rw [hnil] at this
  exact List.not_mem_nil f this

/-- C6: the dedup step is idempotent — re-running `_deduplicate_flags` on
its own output returns the output unchanged, same findings in the same
order. -/
theorem claim_C6 (flags : List RedFlag) :
    _deduplicate_flags (_deduplicate_flags flags) = _deduplicate_flags flags := by
  have hgrp : ∀ c, byCategory (_deduplicate_flags flags) c = dedupLoop (byCategory flags c) [] :=
    fun c => dedup_filter flags c
  have hck : catKeys (_deduplicate_flags flags) [] = catKeys flags [] := by
    rw [catKeys_eq_catKeysC, dedup_map_category]
    exact catKeysC_flatMap_replicate (catKeys flags [])
      (fun c => (dedupLoop (byCategory flags c) []).length) []
      (catKeys_nodup_disjoint flags []).1
      (by intro c _; exact List.not_mem_nil c)
      (fun c hc => List.length_pos.mpr (dedupLoop_nil_ne_nil (byCategory_ne_nil hc)))
  calc _deduplicate_flags (_deduplicate_flags flags)
      = (catKeys (_deduplicate_flags flags) []).flatMap
          (fun c => dedupLoop (byCategory (_deduplicate_flags flags) c) []) := rfl
    _ = (catKeys flags []).flatMap (fun c => dedupLoop (dedupLoop (byCategory flags c) []) []) := by
        rw [hck]
        exact congrArg _ (funext fun c => by rw [hgrp c])
    _ = (catKeys flags []).flatMap (fun c => dedupLoop (byCategory flags c) []) :=
        congrArg _ (funext fun c => dedupLoop_idem _ _)
    _ = _deduplicate_flags flags := rfl

theorem byCategory_map_pk :
    ∀ (flags flags' : List RedFlag),
      flags.map (fun f => (f.category, _get_flag_key f)) =
        flags'.map (fun f => (f.category, _get_flag_key f)) →
      ∀ c, (byCategory flags c).map (fun f => (f.category, _get_flag_key f)) =
        (byCategory flags' c).map (fun f => (f.category, _get_flag_key f)) := by
  intro flags
  induction flags with
  | nil =>
    intro flags' h c
    cases flags' with
    | nil => rfl
    | cons g gs => simp at h
  | cons f fs ih =>
    intro flags' h c
    cases flags' with
    | nil => simp at h
    | cons g gs =>
      simp only [List.map_cons, List.cons.injEq] at h
      obtain ⟨hpk, ht⟩ := h
      have hcat : f.category = g.category := congrArg Prod.fst hpk
      simp only [byCategory, List.filter_cons]
      by_cases hfc : f.category = c
      · rw [if_pos (decide_eq_true hfc), if_pos (decide_eq_true (hcat ▸ hfc))]
        simp only [List.map_cons]
        have h2 := ih gs ht c
        simp only [byCategory] at h2
        rw [h2, hpk]
      · rw [if_neg (by simp [hfc]), if_neg (by simp [hcat ▸ hfc])]
        have h2 := ih gs ht c
        simpa only [byCategory] using h2

theorem dedupLoop_map_pk (gs : List RedFlag) (seen : List String) :
    (dedupLoop gs seen).map (fun f => (f.category, _get_flag_key f)) =
      maskFilter (gs.map (fun f => (f.category, _get_flag_key f)))
        (keepMask ((gs.map (fun f => (f.category, _get_flag_key f))).map Prod.snd) seen) := by
  rw [dedupLoop_eq_maskFilter, maskFilter_map]
  simp only [List.map_map]
  rfl

/-- C1: within each category group of the combined input (rule findings
before external findings) the dedup loop equals a mask filter whose
keep/drop decisions are computed from the key sequence alone in arrival
order — the first finding to introduce a key is kept (`keepMask` accepts
a key not similar to any earlier accepted key) and every later finding
similar to an accepted key is dropped; the first flag of a group always
survives; and two inputs that agree on categories and keys produce
identical survivor sequences of categories and keys, so score and
severity never influence survival. -/
theorem claim_C1 :
    (∀ (rule_flags llm_flags : List RedFlag) (c : FlagCategory),
        dedupLoop (byCategory (rule_flags ++ llm_flags) c) [] =
          maskFilter (byCategory (rule_flags ++ llm_flags) c)
            (keepMask ((byCategory (rule_flags ++ llm_flags) c).map _get_flag_key) []))
    ∧ (∀ (f : RedFlag) (fs : List RedFlag),
        dedupLoop (f :: fs) [] = f :: dedupLoop fs [_get_flag_key f])
    ∧ (∀ (flags flags' : List RedFlag),
        flags.map (fun f => (f.category, _get_flag_key f)) =
          flags'.map (fun f => (f.category, _get_flag_key f)) →
        (_deduplicate_flags flags).map (fun f => (f.category, _get_flag_key f)) =
          (_deduplicate_flags flags').map (fun f => (f.category, _get_flag_key f))) := by
  refine ⟨fun _ _ _ => dedupLoop_eq_maskFilter _ _, fun f fs => by simp [dedupLoop], ?_⟩
  intro flags flags' h
  have hcat : flags.map (fun f => f.category) = flags'.map (fun f => f.category) := by
    have h2 := congrArg (List.map Prod.fst) h
    simpa [List.map_map, Function.comp] using h2
  unfold _deduplicate_flags
  rw [map_flatMap_lists, map_flatMap_lists, catKeys_eq_catKeysC, catKeys_eq_catKeysC, hcat]
  exact congrArg _ (funext fun c => by
    rw [dedupLoop_map_pk, dedupLoop_map_pk, byCategory_map_pk flags flags' h c])

/-- Closed instance of the hypotheses of the C1 theorem at concrete
inputs. -/
theorem claim_C1_witness :
    dedupLoop (byCategory ([sampleJur] ++ [sampleJur2]) .jurisdiction) [] =
      maskFilter (byCategory ([sampleJur] ++ [sampleJur2]) .jurisdiction)
        (keepMask ((byCategory ([sampleJur] ++ [sampleJur2]) .jurisdiction).map _get_flag_key) [])
    ∧ dedupLoop [sampleJur, sampleJur2] [] = sampleJur :: dedupLoop [sampleJur2] [_get_flag_key sampleJur]
    ∧ ([sampleJur].map (fun f => (f.category, _get_flag_key f)) =
        [sampleJur].map (fun f => (f.category, _get_flag_key f)))
    ∧ (_deduplicate_flags [sampleJur]).map (fun f => (f.category, _get_flag_key f)) =
      (_deduplicate_flags [sampleJur]).map (fun f => (f.category, _get_flag_key f)) :=
  ⟨claim_C1.1 [sampleJur] [sampleJur2] .jurisdiction,
   claim_C1.2.1 sampleJur [sampleJur2],
   rfl,
   claim_C1.2.2 [sampleJur] [sampleJur] rfl⟩

/-- C5: findings in different categories are never deduplicated against
each other — the survivors of a category are computed from that
category's subsequence alone, and a two-finding input with distinct
categories survives in full even when titles and descriptions are
textually identical. -/
theorem claim_C5 :
    (∀ (flags : List RedFlag) (c : FlagCategory),
        (_deduplicate_flags flags).filter (fun f => decide (f.category = c)) =
          dedupLoop (byCategory flags c) [])
    ∧ (∀ (f g : RedFlag), f.category ≠ g.category → _deduplicate_flags [f, g] = [f, g]) := by
  refine ⟨dedup_filter, ?_⟩
  intro f g hne
  unfold _deduplicate_flags
  have hck : catKeys [f, g] [] = [f.category, g.category] := by
    simp [catKeys, Ne.symm hne]
  have h1 : byCategory [f, g] f.category = [f] := by
    simp [byCategory, List.filter_cons, Ne.symm hne]
  have h2 : byCategory [f, g] g.category = [g] := by
    simp [byCategory, List.filter_cons, hne]
  rw [hck]
  simp [List.flatMap_cons, h1, h2, dedupLoop]

/-- Closed instance of the C5 theorem at concrete inputs: two textually
identical findings in different categories both survive. -/
theorem claim_C5_witness :
    (_deduplicate_flags [sampleJur, sampleFin]).filter
        (fun f => decide (f.category = FlagCategory.jurisdiction)) =
      dedupLoop (byCategory [sampleJur, sampleFin] .jurisdiction) []
    ∧ _deduplicate_flags
        [{ sampleJur with title := "same", description := "same" },
         { sampleFin with title := "same", description := "same" }] =
      [{ sampleJur with title := "same", description := "same" },
       { sampleFin with title := "same", description := "same" }] :=
  ⟨claim_C5.1 [sampleJur, sampleFin] .jurisdiction,
   claim_C5.2 _ _ (by decide)⟩

theorem are_similar_eq_calc (k1 k2 : String) : _are_similar k1 k2 = are_similar_calc k1 k2 := by
  unfold _are_similar are_similar_calc
  by_cases h : ((splitWords k1).isEmpty || (splitWords k2).isEmpty) = true
  · rw [if_pos h, if_pos h]
  · rw [if_neg h, if_neg h]
    dsimp only
    have hne : ¬(splitWords k1).isEmpty = true := by
      simp only [Bool.or_eq_true] at h
      exact fun hh => h (Or.inl hh)
    have hlen : 0 < (splitWords k1).length := by
      cases hsw : splitWords k1 with
      | nil => rw [hsw] at hne; simp at hne
      | cons a as => simp
    have hupos : 0 <
        (splitWords k1).length +
          ((splitWords k2).filter (fun w => !(splitWords k1).contains w)).length :=
      Nat.lt_of_lt_of_le hlen (Nat.le_add_right _ _)
    rw [if_pos hupos, decide_eq_decide]
    rw [div_le_div_iff₀ (by norm_num) (by exact_mod_cast hupos)]
    rw [mul_comm
      ((((splitWords k1).filter (fun w => (splitWords k2).contains w)).length : ℚ)) 10]
    exact_mod_cast Iff.rfl

theorem dedupLoop_eq_calc : ∀ (gs : List RedFlag) (seen : List String),
    dedupLoop gs seen = dedupLoopCalc gs seen := by
  intro gs
  induction gs with
  | nil => intro seen; rfl
  | cons f fs ih =>
    intro seen
    simp only [dedupLoop, dedupLoopCalc]
    rw [show (fun seen_key => _are_similar (_get_flag_key f) seen_key) =
        (fun seen_key => are_similar_calc (_get_flag_key f) seen_key) from
      funext fun sk => are_similar_eq_calc _ _]
    by_cases h : (seen.any fun seen_key => are_similar_calc (_get_flag_key f) seen_key) = true <;>
      simp [h, ih]

theorem dedup_eq_calc (flags : List RedFlag) : _deduplicate_flags flags = deduplicateCalc flags := by
  unfold _deduplicate_flags deduplicateCalc
  exact congrArg _ (funext fun c => dedupLoop_eq_calc _ _)

theorem mem_catKeysC {c : FlagCategory} :
    ∀ (cats seen : List FlagCategory), c ∈ catKeysC cats seen ↔ c ∉ seen ∧ c ∈ cats := by
  intro cats
  induction cats with
  | nil => intro seen; simp [catKeysC]
  | cons a rest ih =>
    intro seen
    simp only [catKeysC]
    by_cases h : a ∈ seen
    · rw [if_pos h, ih]
      constructor
      · rintro ⟨h1, h2⟩
        exact ⟨h1, List.mem_cons_of_mem _ h2⟩
      · rintro ⟨h1, h2⟩
        rcases List.mem_cons.mp h2 with rfl | h3
        · exact absurd h h1
        · exact ⟨h1, h3⟩
    · rw [if_neg h]
      constructor
      · intro hmem
        rcases List.mem_cons.mp hmem with rfl | hmem2
        · exact ⟨h, List.mem_cons_self _ _⟩
        · obtain ⟨h1, h2⟩ := (ih _).mp hmem2
          exact ⟨fun hs => h1 (List.mem_cons_of_mem _ hs), List.mem_cons_of_mem _ h2⟩
      · rintro ⟨h1, h2⟩
        rcases List.mem_cons.mp h2 with rfl | h3
        · exact List.mem_cons_self _ _
        · by_cases hca : c = a
          · exact hca ▸ List.mem_cons_self _ _
          · refine List.mem_cons_of_mem _ ((ih _).mpr ⟨?_, h3⟩)
            intro hs
            rcases List.mem_cons.mp hs with h4 | h4
            · exact hca h4
            · exact h1 h4

theorem catKeysC_pairwise_findIdx :
    ∀ (cats seen : List FlagCategory),
      List.Pairwise (fun c c' =>
          cats.findIdx (fun d => decide (d = c)) < cats.findIdx (fun d => decide (d = c')))
        (catKeysC cats seen) := by
  intro cats
  induction cats with
  | nil => intro seen; simp [catKeysC]
  | cons a rest ih =>
    intro seen
    simp only [catKeysC]
    by_cases h : a ∈ seen
    · rw [if_pos h]
      refine (ih seen).imp_of_mem ?_
      intro c c' hc hc' hlt
      have hca : ¬(a = c) := fun he =>
        ((mem_catKeysC rest seen).mp hc).1 (he ▸ h)
      have hca' : ¬(a = c') := fun he =>
        ((mem_catKeysC rest seen).mp hc').1 (he ▸ h)
      simp only [List.findIdx_cons]
      simp [hca, hca']
      omega
    · rw [if_neg h]
      constructor
      · intro c' hc'
        have hca' : ¬(a = c') := fun he =>
          ((mem_catKeysC rest (a :: seen)).mp hc').1 (he ▸ List.mem_cons_self a seen)
        simp only [List.findIdx_cons]
        simp [hca']
      · refine (ih (a :: seen)).imp_of_mem ?_
        intro c c' hc hc' hlt
        have hca : ¬(a = c) := fun he =>
          ((mem_catKeysC rest (a :: seen)).mp hc).1 (he ▸ List.mem_cons_self a seen)
        have hca' : ¬(a = c') := fun he =>
          ((mem_catKeysC rest (a :: seen)).mp hc').1 (he ▸ List.mem_cons_self a seen)
        simp only [List.findIdx_cons]
        simp [hca, hca']
        omega

/-- C10: the sequence dedup hands to sorting is grouped by category —
its category sequence is a concatenation of constant blocks, one per
distinct input category; the blocks are ordered by each category's first
occurrence in the combined input (strictly increasing first-occurrence
indices) and cover exactly the categories present; within a block the
survivors keep arrival order (a sublist of that category's subsequence);
the closing concrete instance shows the handed-over order is this
category-grouped order and not the overall arrival order of the input. -/
theorem claim_C10 :
    (∀ (flags : List RedFlag),
        (_deduplicate_flags flags).map (fun f => f.category) =
          (catKeys flags []).flatMap
            (fun c => List.replicate (dedupLoop (byCategory flags c) []).length c))
    ∧ (∀ (flags : List RedFlag),
        List.Pairwise (fun c c' =>
            (flags.map (fun f => f.category)).findIdx (fun d => decide (d = c)) <
              (flags.map (fun f => f.category)).findIdx (fun d => decide (d = c')))
          (catKeys flags []))
    ∧ (∀ (flags : List RedFlag) (c : FlagCategory),
        c ∈ catKeys flags [] ↔ ∃ f ∈ flags, f.category = c)
    ∧ (∀ (flags : List RedFlag) (c : FlagCategory),
        ((_deduplicate_flags flags).filter (fun f => decide (f.category = c))).Sublist
          (byCategory flags c))
    ∧ _deduplicate_flags [sampleJur, sampleFin, sampleJur2] =
        [sampleJur, sampleJur2, sampleFin] := by
  refine ⟨dedup_map_category, ?_, ?_, ?_, ?_⟩
  · intro flags
    rw [catKeys_eq_catKeysC]
    exact catKeysC_pairwise_findIdx _ []
  · intro flags c
    rw [mem_catKeys]
    simp
  · intro flags c
    rw [dedup_filter]
    exact dedupLoop_sublist _ _
  · rw [dedup_eq_calc]
    decide

/-! ## Lemmas about similarity and the spec's Jaccard formula -/

theorem are_similar_iff (k1 k2 : String) :
    _are_similar k1 k2 = true ↔
      (splitWords k1 ≠ [] ∧ splitWords k2 ≠ [] ∧ 7/10 ≤ jaccardSim k1 k2) := by
  unfold _are_similar jaccardSim
  by_cases h1 : (splitWords k1).isEmpty = true
  · have he : splitWords k1 = [] := List.isEmpty_iff.mp h1
    simp [h1, he]
  · by_cases h2 : (splitWords k2).isEmpty = true
    · have he : splitWords k2 = [] := List.isEmpty_iff.mp h2
      simp [h1, h2, he]
    · have hne1 : splitWords k1 ≠ [] := fun he => h1 (List.isEmpty_iff.mpr he)
      have hne2 : splitWords k2 ≠ [] := fun he => h2 (List.isEmpty_iff.mpr he)
      have hlen : 0 < (splitWords k1).length := List.length_pos.mpr hne1
      have hupos : 0 <
          (splitWords k1).length +
            ((splitWords k2).filter (fun w => !(splitWords k1).contains w)).length :=
        Nat.lt_of_lt_of_le hlen (Nat.le_add_right _ _)
      simp only [h1, h2, Bool.or_self, Bool.or_false, Bool.false_or, if_false,
        Bool.false_eq_true]
      rw [if_pos hupos]
      simp only [decide_eq_true_eq]
      constructor
      · intro hq
        refine ⟨hne1, hne2, ?_⟩
        rw [if_neg (by simp [h1, h2])]
        exact hq
      · rintro ⟨-, -, hq⟩
        rw [if_neg (by simp [h1, h2])] at hq
        exact hq

theorem jaccard_empty (k1 k2 : String) (h : splitWords k1 = [] ∨ splitWords k2 = []) :
    jaccardSim k1 k2 = 0 ∧ _are_similar k1 k2 = false := by
  unfold jaccardSim _are_similar
  rcases h with h | h <;> simp [h]

theorem jaccard_lt_of_not_similar {k1 k2 : String} (h : _are_similar k1 k2 = false) :
    ¬ (7/10 ≤ jaccardSim k1 k2) := by
  intro hge
  by_cases he : splitWords k1 = [] ∨ splitWords k2 = []
  · have hz := (jaccard_empty k1 k2 he).1
    rw [hz] at hge
    norm_num at hge
  · push_neg at he
    have htrue := (are_similar_iff k1 k2).mpr ⟨he.1, he.2, hge⟩
    rw [h] at htrue
    exact Bool.false_ne_true htrue

theorem splitWords_nodup (k : String) : (splitWords k).Nodup := by
  unfold splitWords
  exact List.nodup_dedup _

theorem filter_contains_toFinset {w1 w2 : List String} (h1 : w1.Nodup) :
    ((w1.filter (fun w => w2.contains w)).length : ℕ) =
      (w1.toFinset ∩ w2.toFinset).card := by
  rw [← List.toFinset_card_of_nodup (h1.filter _), List.toFinset_filter]
  congr 1
  ext w
  simp [Finset.mem_filter, List.mem_toFinset]

theorem union_length_toFinset {w1 w2 : List String} (h1 : w1.Nodup) (h2 : w2.Nodup) :
    ((w1.length + (w2.filter (fun w => !w1.contains w)).length : ℕ)) =
      (w1.toFinset ∪ w2.toFinset).card := by
  have hd : ((w2.filter (fun w => !w1.contains w)).length : ℕ) =
      (w2.toFinset \ w1.toFinset).card := by
    rw [← List.toFinset_card_of_nodup (h2.filter _), List.toFinset_filter]
    congr 1
    ext w
    simp [Finset.mem_sdiff, List.mem_toFinset]
  rw [hd, ← List.toFinset_card_of_nodup h1, Finset.union_comm]
  have hc := Finset.card_sdiff_add_card w2.toFinset w1.toFinset
  omega

theorem jaccardSim_comm (k1 k2 : String) : jaccardSim k1 k2 = jaccardSim k2 k1 := by
  unfold jaccardSim
  by_cases he : (splitWords k1).isEmpty = true ∨ (splitWords k2).isEmpty = true
  · rw [if_pos (by tauto), if_pos (by tauto)]
  · push_neg at he
    rw [if_neg (by tauto), if_neg (by tauto)]
    rw [filter_contains_toFinset (splitWords_nodup k1),
      filter_contains_toFinset (splitWords_nodup k2),
      union_length_toFinset (splitWords_nodup k1) (splitWords_nodup k2),
      union_length_toFinset (splitWords_nodup k2) (splitWords_nodup k1),
      Finset.inter_comm, Finset.union_comm]

theorem dedupLoop_pairwise :
    ∀ (gs : List RedFlag) (seen : List String),
      (∀ b ∈ dedupLoop gs seen, ∀ k ∈ seen, _are_similar (_get_flag_key b) k = false)
      ∧ List.Pairwise (fun a b => _are_similar (_get_flag_key b) (_get_flag_key a) = false)
          (dedupLoop gs seen) := by
  intro gs
  induction gs with
  | nil => intro seen; simp [dedupLoop]
  | cons f fs ih =>
    intro seen
    simp only [dedupLoop]
    by_cases h : (seen.any fun seen_key => _are_similar (_get_flag_key f) seen_key) = true
    · simp only [h, if_true]
      exact ih seen
    · simp only [h, if_false]
      have hforall : ∀ k ∈ seen, _are_similar (_get_flag_key f) k = false := by
        intro k hk
        by_contra hne
        exact h (List.any_eq_true.mpr ⟨k, hk, by
          revert hne
          cases _are_similar (_get_flag_key f) k <;> simp⟩)
      obtain ⟨ih1, ih2⟩ := ih (seen ++ [_get_flag_key f])
      constructor
      · intro b hb k hk
        rcases List.mem_cons.mp hb with rfl | hb2
        · exact hforall k hk
        · exact ih1 b hb2 k (List.mem_append_left _ hk)
      · refine List.pairwise_cons.mpr ⟨?_, ih2⟩
        intro b hb
        exact ih1 b hb (_get_flag_key f) (List.mem_append_right _ (List.mem_cons_self _ _))

theorem dedup_pairwise_jaccard (flags : List RedFlag) :
    List.Pairwise (fun a b => a.category = b.category →
        ¬ (7/10 ≤ jaccardSim (_get_flag_key a) (_get_flag_key b)))
      (_deduplicate_flags flags) := by
  unfold _deduplicate_flags
  rw [show (catKeys flags []).flatMap (fun c => dedupLoop (byCategory flags c) []) =
      ((catKeys flags []).map (fun c => dedupLoop (byCategory flags c) [])).flatten from rfl]
  rw [List.pairwise_flatten]
  constructor
  · intro l hl
    obtain ⟨c, -, rfl⟩ := List.mem_map.mp hl
    refine ((dedupLoop_pairwise _ []).2).imp ?_
    intro a b hab
    intro _
    rw [jaccardSim_comm]
    exact jaccard_lt_of_not_similar hab
  · rw [List.pairwise_map]
    have hnd := (catKeys_nodup_disjoint flags []).1
    refine (List.Pairwise.imp ?_ hnd)
    intro c c' hne x hx y hy
    intro hcat
    exact absurd ((dedupGroup_all_cat flags c x hx).symm.trans
      (hcat.trans (dedupGroup_all_cat flags c' y hy))) hne

theorem dedup_pair_survives {f g : RedFlag} (hcat : f.category = g.category)
    (hsim : _are_similar (_get_flag_key g) (_get_flag_key f) = false) :
    _deduplicate_flags [f, g] = [f, g] := by
  have hgf : g.category = f.category := hcat.symm
  have hck : catKeys [f, g] [] = [f.category] := by
    simp [catKeys, hgf]
  have hbc : byCategory [f, g] f.category = [f, g] := by
    simp [byCategory, List.filter_cons, hgf]
  unfold _deduplicate_flags
  rw [hck, List.flatMap_cons, hbc]
  simp [dedupLoop, hsim]

/-- C7: the code's similarity test agrees with the spec's Jaccard
formula — `_are_similar` holds exactly when both token sets are nonempty
and the Jaccard similarity of the keys is at least 0.7; an empty token
set on either side gives similarity 0 and never a match; any two dedup
survivors of the same category have Jaccard similarity below 0.7 (so of
two same-category findings with similarity at least 0.7, at most one
survives); and a two-finding same-category input with distinct keys and
similarity below 0.7 survives in full. -/
theorem claim_C7 :
    (∀ k1 k2 : String, _are_similar k1 k2 = true ↔
        (splitWords k1 ≠ [] ∧ splitWords k2 ≠ [] ∧ 7/10 ≤ jaccardSim k1 k2))
    ∧ (∀ k1 k2 : String, splitWords k1 = [] ∨ splitWords k2 = [] →
        jaccardSim k1 k2 = 0 ∧ _are_similar k1 k2 = false)
    ∧ (∀ flags : List RedFlag,
        List.Pairwise (fun a b => a.category = b.category →
            ¬ (7/10 ≤ jaccardSim (_get_flag_key a) (_get_flag_key b)))
          (_deduplicate_flags flags))
    ∧ (∀ f g : RedFlag, f.category = g.category →
        _get_flag_key f ≠ _get_flag_key g →
        ¬ (7/10 ≤ jaccardSim (_get_flag_key f) (_get_flag_key g)) →
        _deduplicate_flags [f, g] = [f, g]) := by
  refine ⟨are_similar_iff, jaccard_empty, dedup_pairwise_jaccard, ?_⟩
  intro f g hcat hkeys hlt
  have hsim : _are_similar (_get_flag_key g) (_get_flag_key f) = false := by
    by_cases hb : _are_similar (_get_flag_key g) (_get_flag_key f) = true
    · obtain ⟨-, -, hge⟩ := (are_similar_iff _ _).mp hb
      rw [jaccardSim_comm] at hge
      exact absurd hge hlt
    · cases hval : _are_similar (_get_flag_key g) (_get_flag_key f)
      · rfl
      · exact absurd hval hb
  exact dedup_pair_survives hcat hsim

/-- Closed instance of the C7 theorem's hypotheses at concrete inputs:
an empty-token key never matches, and a same-category pair with distinct
dissimilar keys survives dedup in full. -/
theorem claim_C7_witness :
    (jaccardSim " " "x" = 0 ∧ _are_similar " " "x" = false)
    ∧ _deduplicate_flags [sampleJur, sampleJur2] = [sampleJur, sampleJur2] := by
  constructor
  · exact claim_C7.2.1 " " "x" (Or.inl (by decide))
  · refine claim_C7.2.2.2 sampleJur sampleJur2 (by decide) (by decide) ?_
    exact jaccard_lt_of_not_similar (by rw [are_similar_eq_calc]; decide)

/-! ## Lemmas about sorting (stability and order) -/

theorem filter_orderedInsert (p : RedFlag → Bool)
    (hp : ∀ x y, p x = true → p y = true → flagOrder x y) (x : RedFlag) (l : List RedFlag) :
    (List.orderedInsert flagOrder x l).filter p =
      if p x then x :: l.filter p else l.filter p := by
  rw [List.orderedInsert_eq_take_drop, List.filter_append]
  by_cases hx : p x = true
  · rw [if_pos hx]
    have htake : ((l.takeWhile fun b => decide ¬flagOrder x b).filter p) = [] := by
      rw [List.filter_eq_nil_iff]
      intro b hb hpb
      have hbt := List.mem_takeWhile_imp hb
      simp only [decide_eq_true_eq] at hbt
      exact hbt (hp x b hx hpb)
    rw [htake, List.nil_append, List.filter_cons, if_pos hx]
    conv_rhs => rw [← List.takeWhile_append_dropWhile (p := fun b => decide ¬flagOrder x b) (l := l)]
    rw [List.filter_append, htake, List.nil_append]
  · rw [if_neg hx, List.filter_cons, if_neg hx]
    rw [← List.filter_append, List.takeWhile_append_dropWhile]

theorem filter_insertionSort (p : RedFlag → Bool)
    (hp : ∀ x y, p x = true → p y = true → flagOrder x y) :
    ∀ l : List RedFlag, (List.insertionSort flagOrder l).filter p = l.filter p := by
  intro l
  induction l with
  | nil => rfl
  | cons x xs ih =>
    rw [List.insertionSort, filter_orderedInsert p hp x _]
    by_cases hx : p x = true
    · rw [if_pos hx, ih, List.filter_cons, if_pos hx]
    · rw [if_neg hx, ih, List.filter_cons, if_neg hx]

theorem aggregate_flags (document_name : String) (rule_flags llm_flags : List RedFlag)
    (processing_time : ℚ) (now : Int) :
    (aggregate document_name rule_flags llm_flags processing_time now).flags =
      List.insertionSort flagOrder (_deduplicate_flags (rule_flags ++ llm_flags)) := rfl

/-- C2: the report's finding sequence is sorted ascending by
`(severity_order, -score)` — a lower severity rank always precedes a
higher one, and within equal severity scores are non-increasing — and the
sort is stable: the findings with any given severity and score appear in
exactly their post-dedup relative order. -/
theorem claim_C2 (document_name : String) (rule_flags llm_flags : List RedFlag)
    (processing_time : ℚ) (now : Int) :
    List.Pairwise (fun a b =>
        severity_order a.severity < severity_order b.severity ∨
          (severity_order a.severity = severity_order b.severity ∧ b.score ≤ a.score))
      (aggregate document_name rule_flags llm_flags processing_time now).flags
    ∧ ∀ (s : SeverityLevel) (q : Int),
        ((aggregate document_name rule_flags llm_flags processing_time now).flags.filter
            (fun f => decide (f.severity = s) && decide (f.score = q))) =
          ((_deduplicate_flags (rule_flags ++ llm_flags)).filter
            (fun f => decide (f.severity = s) && decide (f.score = q))) := by
  constructor
  · rw [aggregate_flags]
    have hs := List.sorted_insertionSort flagOrder (_deduplicate_flags (rule_flags ++ llm_flags))
    refine hs.imp ?_
    intro a b hab
    unfold flagOrder at hab
    rcases hab with h | ⟨h1, h2⟩
    · exact Or.inl h
    · exact Or.inr ⟨h1, by omega⟩
  · intro s q
    rw [aggregate_flags]
    apply filter_insertionSort
    intro x y hpx hpy
    simp only [Bool.and_eq_true, decide_eq_true_eq] at hpx hpy
    unfold flagOrder
    refine Or.inr ⟨by rw [hpx.1, hpy.1], ?_⟩
    rw [hpx.2, hpy.2]

/-! ## Lemmas about the risk score -/

theorem foldl_riskStep (l : List RedFlag) (a : Int × Int) :
    l.foldl riskStep a =
      (a.1 + (l.map (fun f => f.score * severity_weights f.severity)).sum,
       a.2 + (l.map (fun f => severity_weights f.severity)).sum) := by
  induction l generalizing a with
  | nil => simp
  | cons f fs ih =>
    rw [List.foldl_cons, ih]
    simp [riskStep, add_assoc]

theorem weight_sum_pos {flags : List RedFlag} (h : flags ≠ []) :
    0 < (flags.map (fun f => severity_weights f.severity)).sum := by
  cases flags with
  | nil => exact absurd rfl h
  | cons f fs =>
    simp only [List.map_cons, List.sum_cons]
    have h1 : 1 ≤ severity_weights f.severity := by cases f.severity <;> decide
    have h2 : 0 ≤ (fs.map (fun f => severity_weights f.severity)).sum := by
      apply List.sum_nonneg
      intro x hx
      obtain ⟨g, -, rfl⟩ := List.mem_map.mp hx
      cases g.severity <;> decide
    omega

theorem cast_sum_weighted (flags : List RedFlag) :
    (((flags.map (fun f => f.score * severity_weights f.severity)).sum : ℤ) : ℚ) =
      (flags.map (fun f => (severity_weights f.severity : ℚ) * (f.score : ℚ))).sum := by
  induction flags with
  | nil => simp
  | cons f fs ih =>
    simp only [List.map_cons, List.sum_cons]
    push_cast
    rw [mul_comm ((f.score : ℚ)) ((severity_weights f.severity : ℚ))]
    rw [← ih]
    push_cast
    ring

theorem cast_sum_weights (flags : List RedFlag) :
    (((flags.map (fun f => severity_weights f.severity)).sum : ℤ) : ℚ) =
      (flags.map (fun f => (severity_weights f.severity : ℚ))).sum := by
  induction flags with
  | nil => simp
  | cons f fs ih =>
    simp only [List.map_cons, List.sum_cons]
    push_cast
    rw [← ih]
    push_cast
    ring

theorem calculate_risk_eq {flags : List RedFlag} (h : flags ≠ []) :
    _calculate_risk_score flags = pyRound2 (specWeightedMean flags) := by
  unfold _calculate_risk_score specWeightedMean
  rw [if_neg (by simpa [List.isEmpty_iff] using h)]
  rw [foldl_riskStep]
  simp only [zero_add]
  rw [if_neg (by exact Int.ne_of_gt (weight_sum_pos h))]
  rw [cast_sum_weighted, cast_sum_weights]

theorem specWeightedMean_perm {l1 l2 : List RedFlag} (h : l1.Perm l2) :
    specWeightedMean l1 = specWeightedMean l2 := by
  unfold specWeightedMean
  rw [(h.map _).sum_eq, (h.map _).sum_eq]

theorem aggregate_risk (document_name : String) (rule_flags llm_flags : List RedFlag)
    (processing_time : ℚ) (now : Int) :
    (aggregate document_name rule_flags llm_flags processing_time now).overall_risk_score =
      _calculate_risk_score
        (List.insertionSort flagOrder (_deduplicate_flags (rule_flags ++ llm_flags))) := rfl

/-- C3: the report's overall risk score is the severity-weighted mean of
the surviving findings' scores (weights CRITICAL 10, HIGH 5, MEDIUM 2,
LOW 1) rounded to two decimal places; an empty surviving set gives
exactly 0, and a single CRITICAL finding with score 10 gives exactly 10. -/
theorem claim_C3 (document_name : String) (rule_flags llm_flags : List RedFlag)
    (processing_time : ℚ) (now : Int) :
    ((aggregate document_name rule_flags llm_flags processing_time now).overall_risk_score =
      if _deduplicate_flags (rule_flags ++ llm_flags) = [] then 0
      else pyRound2 (specWeightedMean (_deduplicate_flags (rule_flags ++ llm_flags))))
    ∧ (∀ f : RedFlag, f.severity = .CRITICAL → f.score = 10 →
        (aggregate document_name [f] [] processing_time now).overall_risk_score = 10)
    ∧ (aggregate document_name [] [] processing_time now).overall_risk_score = 0 := by
  refine ⟨?_, ?_, ?_⟩
  · rw [aggregate_risk]
    by_cases hd : _deduplicate_flags (rule_flags ++ llm_flags) = []
    · rw [if_pos hd, hd]
      rfl
    · rw [if_neg hd]
      have hperm := List.perm_insertionSort flagOrder (_deduplicate_flags (rule_flags ++ llm_flags))
      have hne : List.insertionSort flagOrder (_deduplicate_flags (rule_flags ++ llm_flags)) ≠ [] := by
        intro hnil
        have hlen := hperm.length_eq
        rw [hnil] at hlen
        exact hd (List.eq_nil_of_length_eq_zero hlen.symm)
      rw [calculate_risk_eq hne, specWeightedMean_perm hperm]
  · intro f hsev hscore
    rw [aggregate_risk]
    have hd : _deduplicate_flags ([f] ++ []) = [f] := by
      simp [_deduplicate_flags, catKeys, byCategory, dedupLoop]
    rw [hd]
    have hsort : List.insertionSort flagOrder [f] = [f] := rfl
    rw [hsort]
    unfold _calculate_risk_score
    rw [if_neg (by simp)]
    rw [foldl_riskStep]
    simp only [List.map_cons, List.map_nil, List.sum_cons, List.sum_nil, zero_add, add_zero]
    rw [hsev, hscore]
    norm_num [severity_weights, pyRound2, roundHalfEven]
  · rw [aggregate_risk]
    rfl

/-- Closed instance of the C3 theorem's hypotheses at a concrete input:
a single CRITICAL finding with score 10 yields overall risk exactly 10. -/
theorem claim_C3_witness :
    (aggregate "doc" [sampleCrit] [] 0 0).overall_risk_score = 10 :=
  (claim_C3 "doc" [] [] 0 0).2.1 sampleCrit rfl rfl

/-! ## Claims about the semantic-analysis adapter and the rule engine -/

/-- C4: parsing an external finding with a category outside the fixed
enumeration keeps the finding with category coerced to `other`, one with
a severity outside the fixed enumeration keeps it with severity coerced
to `MEDIUM` (so invalid values are never propagated, the result being a
value of the enumeration by construction), and every item of the batch
yields exactly one parsed finding in place — parsing one item never
aborts the batch. -/
theorem claim_C4 :
    (∀ s : String, s ∉ categoryStrings.map Prod.fst → FlagCategory.fromString s = .other)
    ∧ (∀ s : String, s ∉ severityStrings.map Prod.fst → SeverityLevel.fromString s = .MEDIUM)
    ∧ (∀ (items : List LLMItem) (source : String),
        (_parse_llm_response items source).length = items.length)
    ∧ (∀ (items : List LLMItem) (source : String) (i : Nat),
        (_parse_llm_response items source)[i]? = (items[i]?).map (parseItemFlag source)) := by
  refine ⟨?_, ?_, ?_, ?_⟩
  · intro s hs
    unfold FlagCategory.fromString
    rw [List.find?_eq_none.mpr]
    intro p hp
    simp only [beq_iff_eq]
    intro he
    exact hs (he ▸ List.mem_map_of_mem Prod.fst hp)
  · intro s hs
    unfold SeverityLevel.fromString
    rw [List.find?_eq_none.mpr]
    intro p hp
    simp only [beq_iff_eq]
    intro he
    exact hs (he ▸ List.mem_map_of_mem Prod.fst hp)
  · intro items source
    unfold _parse_llm_response
    exact List.length_map _ _
  · intro items source i
    unfold _parse_llm_response
    exact List.getElem?_map _ _ _

/-- Closed instance of the C4 theorem's hypotheses at concrete inputs:
an unrecognized category string coerces to `other`, an unrecognized
severity string coerces to `MEDIUM`, and a malformed item is kept. -/
theorem claim_C4_witness :
    FlagCategory.fromString "weird" = .other
    ∧ SeverityLevel.fromString "SEVERE" = .MEDIUM
    ∧ (_parse_llm_response [sampleBadItem] "claude").length = 1
    ∧ (_parse_llm_response [sampleBadItem] "claude")[0]? =
        ([sampleBadItem][0]?).map (parseItemFlag "claude") :=
  ⟨claim_C4.1 "weird" (by decide),
   claim_C4.2.1 "SEVERE" (by decide),
   claim_C4.2.2.1 [sampleBadItem] "claude",
   claim_C4.2.2.2 [sampleBadItem] "claude" 0⟩

/-- C8: the rule engine is deterministic and stateless across calls —
`analyze` resets the accumulated state before running the checks, so its
output on a text does not depend on the engine state it is called on,
a prior invocation on different text does not affect a later invocation's
output, and the post-call state is exactly the returned finding list. -/
theorem claim_C8 (e₁ e₂ : RuleEngine) (text other : String) :
    (e₁.analyze text).1 = (e₂.analyze text).1
    ∧ ((e₁.analyze other).2.analyze text).1 = (e₁.analyze text).1
    ∧ (e₁.analyze text).2.flags = (e₁.analyze text).1 :=
  ⟨rfl, rfl, rfl⟩

/-! ## Lemmas about the missing-schedule check -/

theorem findSome?_isSome_of_mem {α β : Type} {l : List α} {f : α → Option β} {x : α}
    (hx : x ∈ l) (hf : (f x).isSome) : (l.findSome? f).isSome := by
  cases hfs : l.findSome? f with
  | some _ => rfl
  | none =>
    have hnone := List.findSome?_eq_none_iff.mp hfs x hx
    rw [hnone] at hf
    exact absurd hf (by simp)

theorem isSome_optionMap {α β : Type} (f : α → β) (o : Option α) :
    (Option.map f o).isSome = o.isSome := by
  cases o <;> rfl

theorem searchSchedule_isSome {text indicator : String}
    (hlow : indicator.data.map Char.toLower = indicator.data)
    (hc : containsSub (text.data.map Char.toLower) indicator.data = true) :
    (searchSchedule text indicator).isSome := by
  unfold containsSub at hc
  rw [List.any_eq_true] at hc
  obtain ⟨i, hi, hpref⟩ := hc
  rw [List.mem_range, List.length_map] at hi
  have hp := (List.isPrefixOf_iff_prefix.mp hpref).length_le
  rw [List.length_drop, List.length_map] at hp
  unfold searchSchedule
  dsimp only
  apply findSome?_isSome_of_mem (x := i)
  · rw [List.mem_range]
    exact hi
  · rw [isSome_optionMap]
    apply findSome?_isSome_of_mem (x := 0)
    · rw [List.mem_reverse, List.mem_range]
      omega
    · have hcond : (decide (i + 0 + (indicator.data.map Char.toLower).length ≤ text.data.length)
          && (((text.data.map Char.toLower).drop i).take 0).all (fun c => c != '\n')
          && (indicator.data.map Char.toLower).isPrefixOf
            ((text.data.map Char.toLower).drop (i + 0))) = true := by
        rw [Bool.and_eq_true, Bool.and_eq_true, decide_eq_true_eq]
        refine ⟨⟨?_, by simp⟩, ?_⟩
        · rw [hlow]
          omega
        · rw [add_zero, hlow]
          exact hpref
      rw [if_pos hcond]
      rfl

theorem schedLoop_eq (text : String) :
    ∀ inds : List String,
      (∀ ind ∈ inds, ind.data.map Char.toLower = ind.data) →
      (match inds.find? (fun ind => containsSub (text.data.map Char.toLower) ind.data) with
       | none => schedLoop text inds = []
       | some ind => ∃ ctx, schedLoop text inds = [mkScheduleFlag ind ctx]) := by
  intro inds
  induction inds with
  | nil => intro _; simp [schedLoop]
  | cons ind rest ih =>
    intro hlow
    by_cases hc : containsSub (text.data.map Char.toLower) ind.data = true
    · rw [List.find?_cons_of_pos
        (p := fun s => containsSub (text.data.map Char.toLower) s.data) (a := ind) _ hc]
      have hs := searchSchedule_isSome (hlow ind (List.mem_cons_self _ _)) hc
      obtain ⟨ctx, hctx⟩ := Option.isSome_iff_exists.mp hs
      simp only [schedLoop, hc, if_true, hctx]
      exact ⟨ctx, rfl⟩
    · rw [List.find?_cons_of_neg
        (p := fun s => containsSub (text.data.map Char.toLower) s.data) (a := ind) _ hc]
      have hrec := ih (fun i hi => hlow i (List.mem_cons_of_mem _ hi))
      simp only [schedLoop, hc, if_false]
      exact hrec

/-- C9: for every document text, the missing-schedule check emits at most
one finding; every emitted finding is CRITICAL with score 10; the
emitted finding (if any) names the FIRST indicator in the configured list
order that is contained in the lowered text — so the check runs in list
order and stops at the first present indicator, and a text containing
only later indicators emits for the earliest one in list order, not the
earliest occurrence in the document (concrete instance: a text where
"to be provided" occurs before "being finalized" still reports
"being finalized", the earlier list entry). -/
theorem claim_C9 (text : String) :
    (_check_missing_schedules text).length ≤ 1
    ∧ (∀ f ∈ _check_missing_schedules text, f.severity = .CRITICAL ∧ f.score = 10)
    ∧ (match missing_indicators.find?
          (fun ind => containsSub (text.data.map Char.toLower) ind.data) with
       | none => _check_missing_schedules text = []
       | some ind => ∃ ctx, _check_missing_schedules text = [mkScheduleFlag ind ctx]) := by
  have hlow : ∀ ind ∈ missing_indicators, ind.data.map Char.toLower = ind.data := by decide
  have hch := schedLoop_eq text missing_indicators hlow
  refine ⟨?_, ?_, hch⟩
  · cases hfind : missing_indicators.find?
        (fun ind => containsSub (text.data.map Char.toLower) ind.data) with
    | none =>
      rw [hfind] at hch
      show (schedLoop text missing_indicators).length ≤ 1
      rw [hch]
      decide
    | some ind =>
      rw [hfind] at hch
      obtain ⟨ctx, hctx⟩ := hch
      show (schedLoop text missing_indicators).length ≤ 1
      rw [hctx]
      simp
  · cases hfind : missing_indicators.find?
        (fun ind => containsSub (text.data.map Char.toLower) ind.data) with
    | none =>
      rw [hfind] at hch
      intro f hf
      rw [show _check_missing_schedules text = schedLoop text missing_indicators from rfl,
        hch] at hf
      exact absurd hf (List.not_mem_nil f)
    | some ind =>
      rw [hfind] at hch
      obtain ⟨ctx, hctx⟩ := hch
      intro f hf
      rw [show _check_missing_schedules text = schedLoop text missing_indicators from rfl,
        hctx] at hf
      rcases List.mem_cons.mp hf with rfl | hf2
      · exact ⟨rfl, rfl⟩
      · exact absurd hf2 (List.not_mem_nil f)

/-- Closed instance of the C9 theorem plus the concrete list-order
behavior: in a text where a later-listed indicator occurs earlier in the
document, the first indicator in list order still wins, and the emitted
finding is CRITICAL with score 10. -/
theorem claim_C9_witness :
    (_check_missing_schedules "to be provided xx being finalized").length ≤ 1
    ∧ (mkScheduleFlag "being finalized" "to be provided xx being finalized").severity =
        .CRITICAL
    ∧ (mkScheduleFlag "being finalized" "to be provided xx being finalized").score = 10
    ∧ _check_missing_schedules "to be provided xx being finalized" =
        [mkScheduleFlag "being finalized" "to be provided xx being finalized"] := by
  have hlist : _check_missing_schedules "to be provided xx being finalized" =
      [mkScheduleFlag "being finalized" "to be provided xx being finalized"] := by decide
  have hmem : mkScheduleFlag "being finalized" "to be provided xx being finalized" ∈
      _check_missing_schedules "to be provided xx being finalized" := by
    rw [hlist]
    exact List.mem_cons_self _ _
  obtain ⟨hs, hq⟩ := (claim_C9 "to be provided xx being finalized").2.1 _ hmem
  exact ⟨(claim_C9 "to be provided xx being finalized").1, hs, hq, hlist⟩
